import Mathlib

/-!
Shallow embedding of the news-feed program (`main.py`): record model,
file importer, feed store and statistics engine, together with proofs of
the specification claims.  Text is modelled at the character level
(`List Char` / `String`), clock instants as microseconds since
0001-01-01T00:00 (the `datetime` epoch), and Python's floor-division
semantics for `timedelta.days` via `Int.fdiv`.
-/

namespace NewsFeedSpec

/-! ## Calendar arithmetic (model of `datetime.date` / `datetime.datetime`) -/

/-- Gregorian leap-year rule used by `datetime`. -/
def isLeapYear (y : Nat) : Bool :=
  y % 4 == 0 && (y % 100 != 0 || y % 400 == 0)

/-- Number of days in month `m` (1-12) of year `y`. -/
def daysInMonth (y m : Nat) : Nat :=
  if m = 2 then (if isLeapYear y then 29 else 28)
  else if m = 4 ∨ m = 6 ∨ m = 9 ∨ m = 11 then 30
  else 31

/-- Days in year `y` strictly before month `m` (so `daysBeforeMonth y 1 = 0`). -/
def daysBeforeMonth (y : Nat) : Nat → Nat
  | 0 => 0
  | 1 => 0
  | m + 2 => daysBeforeMonth y (m + 1) + daysInMonth y (m + 1)

/-- Day number of the date `y-m-d` counted from 0001-01-01 (day 0),
as computed by `datetime.date.toordinal() - 1`. -/
def daysSinceCE (y m d : Nat) : Nat :=
  365 * (y - 1) + (y - 1) / 4 + (y - 1) / 400 - (y - 1) / 100
    + daysBeforeMonth y m + (d - 1)

/-- Inverse of `daysSinceCE`: the civil date `(y, m, d)` of day number `n`. -/
def civilFromDays (n : Nat) : Nat × Nat × Nat :=
  let z := n + 306
  let era := z / 146097
  let doe := z % 146097
  let yoe := (doe - doe / 1460 + doe / 36524 - doe / 146096) / 365
  let y := yoe + era * 400
  let doy := doe - (365 * yoe + yoe / 4 - yoe / 100)
  let mp := (5 * doy + 2) / 153
  let d := doy - (153 * mp + 2) / 5 + 1
  let m := if mp < 10 then mp + 3 else mp - 9
  (if m ≤ 2 then y + 1 else y, m, d)

/-- Microseconds per day (`timedelta` resolution is one microsecond). -/
def usPerDay : Nat := 86400000000

/-- Microseconds per minute. -/
def usPerMinute : Nat := 60000000

/-- Decimal rendering of `n` left-padded with zeros to width `w`. -/
def zpad (w n : Nat) : String :=
  String.mk (List.replicate (w - (toString n).length) '0') ++ toString n

/-- Model of `datetime.now().strftime("%Y-%m-%d %H:%M")` for a clock instant
given in microseconds since 0001-01-01T00:00. -/
def strftimeDateMin (now : Nat) : String :=
  let c := civilFromDays (now / usPerDay)
  let mins := now / usPerMinute % 1440
  zpad 4 c.1 ++ "-" ++ zpad 2 c.2.1 ++ "-" ++ zpad 2 c.2.2 ++ " "
    ++ zpad 2 (mins / 60) ++ ":" ++ zpad 2 (mins % 60)

/-! ## `datetime.strptime(s, "%Y-%m-%d")` -/

/-- Numeric value of an ASCII digit character. -/
def digitVal (c : Char) : Nat := c.toNat - 48

/-- `%Y`: exactly four digits (CPython's `_strptime` regex `\d\d\d\d`). -/
def readYear : List Char → Option (Nat × List Char)
  | a :: b :: c :: d :: rest =>
    if a.isDigit && b.isDigit && c.isDigit && d.isDigit then
      some (1000 * digitVal a + 100 * digitVal b + 10 * digitVal c + digitVal d, rest)
    else none
  | _ => none

/-- `%m`: CPython's regex `1[0-2]|0[1-9]|[1-9]`, tried in that order (a
two-character alternative is only possible when at least two characters
remain). -/
def readMonth : List Char → Option (Nat × List Char)
  | [] => none
  | [c] =>
    if c = '1' then some (1, [])
    else if c = '0' then none
    else if '1' ≤ c ∧ c ≤ '9' then some (digitVal c, [])
    else none
  | c :: c2 :: rest2 =>
    if c = '1' then
      (if '0' ≤ c2 ∧ c2 ≤ '2' then some (10 + digitVal c2, rest2)
       else some (1, c2 :: rest2))
    else if c = '0' then
      (if '1' ≤ c2 ∧ c2 ≤ '9' then some (digitVal c2, rest2) else none)
    else if '1' ≤ c ∧ c ≤ '9' then some (digitVal c, c2 :: rest2)
    else none

/-- `%d`: CPython's regex `3[01]|[12]\d|0[1-9]|[1-9]`, tried in that order. -/
def readDay : List Char → Option (Nat × List Char)
  | [] => none
  | [c] =>
    if c = '3' then some (3, [])
    else if c = '1' ∨ c = '2' then some (digitVal c, [])
    else if c = '0' then none
    else if '1' ≤ c ∧ c ≤ '9' then some (digitVal c, [])
    else none
  | c :: c2 :: rest2 =>
    if c = '3' then
      (if c2 = '0' ∨ c2 = '1' then some (30 + digitVal c2, rest2)
       else some (3, c2 :: rest2))
    else if c = '1' ∨ c = '2' then
      (if '0' ≤ c2 ∧ c2 ≤ '9' then some (10 * digitVal c + digitVal c2, rest2)
       else some (digitVal c, c2 :: rest2))
    else if c = '0' then
      (if '1' ≤ c2 ∧ c2 ≤ '9' then some (digitVal c2, rest2) else none)
    else if '1' ≤ c ∧ c ≤ '9' then some (digitVal c, c2 :: rest2)
    else none

/-- Model of `datetime.strptime(s, "%Y-%m-%d")`: `some (y, m, d)` on success,
`none` when a `ValueError` is raised.  The whole string must be consumed
("unconverted data remains" otherwise), the year must be at least `MINYEAR = 1`,
and the day must exist in the given month. -/
def strptimeYmd (s : String) : Option (Nat × Nat × Nat) :=
  match readYear s.data with
  | none => none
  | some (y, r1) =>
    match r1 with
    | [] => none
    | c1 :: r2 =>
      if c1 = '-' then
        match readMonth r2 with
        | none => none
        | some (m, r3) =>
          match r3 with
          | [] => none
          | c2 :: r4 =>
            if c2 = '-' then
              match readDay r4 with
              | none => none
              | some (d, r5) =>
                if r5 = [] ∧ 1 ≤ y ∧ d ≤ daysInMonth y m then some (y, m, d) else none
            else none
      else none

/-! ## Record model -/

/-- The three record variants, carrying the fields stored by their
`__init__` methods (timestamps are captured at construction). -/
inductive Record where
  | news (text city date : String)
  | privateAd (text : String) (expY expM expD : Nat) (days_left : Int)
  | weatherReport (city temperature date : String)
deriving DecidableEq

/-- `format()` of each variant, verbatim from the source f-strings. -/
def Record.format : Record → String
  | .news text city date =>
      "News -------------------------\n" ++ text ++ "\n" ++ city ++ ", " ++ date ++ "\n"
  | .privateAd text y m d dl =>
      "Private Ad ------------------\n" ++ text ++ "\nActual until: "
        ++ zpad 4 y ++ "-" ++ zpad 2 m ++ "-" ++ zpad 2 d ++ ", "
        ++ toString dl ++ " days left\n"
  | .weatherReport city temperature date =>
      "Weather Report --------------\nCity: " ++ city ++ "\nTemperature: "
        ++ temperature ++ "°C\nReported at: " ++ date ++ "\n"

/-- `News(text, city)` constructed at clock instant `now`. -/
def mkNews (text city : String) (now : Nat) : Record :=
  .news text city (strftimeDateMin now)

/-- Microsecond instant of midnight of the date `y-m-d`. -/
def expMicros (y m d : Nat) : Nat := daysSinceCE y m d * usPerDay

/-- `PrivateAd(text, expiration_date_str)` constructed at clock instant `now`:
`none` models the `ValueError` escaping `__init__`; on success `days_left` is
`(expiration_date - datetime.now()).days`, i.e. the floor of the difference
in days (`Int.fdiv`). -/
def mkPrivateAd (text expiration_date_str : String) (now : Nat) : Option Record :=
  match strptimeYmd expiration_date_str with
  | none => none
  | some (y, m, d) =>
    some (.privateAd text y m d (((expMicros y m d : Int) - (now : Int)).fdiv (usPerDay : Int)))

/-- `WeatherReport(city, temperature)` constructed at clock instant `now`. -/
def mkWeatherReport (city temperature : String) (now : Nat) : Record :=
  .weatherReport city temperature (strftimeDateMin now)

/-! ## File importer (`FileRecordImporter.parse_records`) -/

/-- Python `str.strip()` (whitespace from both ends), on characters. -/
def pyStrip (cs : List Char) : List Char :=
  ((cs.dropWhile Char.isWhitespace).reverse.dropWhile Char.isWhitespace).reverse

/-- Split at every character satisfying `p` (like Python `str.split(sep)` for a
one-character separator: empty pieces are kept). -/
def splitPred (p : Char → Bool) : List Char → List (List Char)
  | [] => [[]]
  | c :: rest =>
    if p c then [] :: splitPred p rest
    else
      match splitPred p rest with
      | [] => [[c]]
      | h :: t => (c :: h) :: t

/-- Python `content.split('\n\n')`: split on non-overlapping occurrences of
two consecutive newlines, scanning left to right. -/
def splitOn2NL : List Char → List (List Char)
  | '\n' :: '\n' :: rest => [] :: splitOn2NL rest
  | c :: rest =>
    match splitOn2NL rest with
    | [] => [[c]]
    | h :: t => (c :: h) :: t
  | [] => [[]]

/-- `[line.strip() for line in raw.split('\n') if line.strip()]`. -/
def blockLines (raw : List Char) : List String :=
  (((splitPred (· = '\n') raw).map pyStrip).filter (fun l => l ≠ [])).map String.mk

/-- The `for raw in raw_records` loop of `parse_records`, with the `records`
accumulator; a failing `PrivateAd` construction is caught (`except`) and the
loop continues. -/
def parse_records_go (now : Nat) : List (List Char) → List Record → List Record
  | [], records => records
  | raw :: rest, records =>
    let lines := blockLines raw
    if lines = [] then parse_records_go now rest records
    else
      let record_type := lines.head!
      if record_type = "News" ∧ 3 ≤ lines.length then
        parse_records_go now rest (records ++ [mkNews (lines.get! 1) (lines.get! 2) now])
      else if record_type = "PrivateAd" ∧ 3 ≤ lines.length then
        match mkPrivateAd (lines.get! 1) (lines.get! 2) now with
        | some r => parse_records_go now rest (records ++ [r])
        | none => parse_records_go now rest records
      else if record_type = "WeatherReport" ∧ 3 ≤ lines.length then
        parse_records_go now rest (records ++ [mkWeatherReport (lines.get! 1) (lines.get! 2) now])
      else
        parse_records_go now rest records

/-- `FileRecordImporter.parse_records` on the file content `content`, with all
records constructed at clock instant `now`. -/
def parse_records (content : String) (now : Nat) : List Record :=
  parse_records_go now (splitOn2NL (pyStrip content.data)) []

/-! ## Statistics engine (`NewsFeed.update_statistics`) -/

/-- The characters of Python's `string.punctuation`. -/
def punctuationChars : List Char :=
  [Char.ofNat 33, Char.ofNat 34, '#', '$', '%', '&', Char.ofNat 39, '(', ')',
   '*', '+', ',', '-', '.', '/', ':', ';', '<', '=', '>', '?', '@', '[',
   Char.ofNat 92, ']', '^', '_', Char.ofNat 96, Char.ofNat 123, '|',
   Char.ofNat 125, '~']

/-- Membership in `string.punctuation`. -/
def isPunctuation (c : Char) : Bool := punctuationChars.contains c

/-- Python `word.strip(string.punctuation)`. -/
def stripPunct (cs : List Char) : List Char :=
  ((cs.dropWhile isPunctuation).reverse.dropWhile isPunctuation).reverse

/-- `filter(None, [word.strip(string.punctuation).lower() for word in text.split()])`:
whitespace tokenisation, end-punctuation stripping, lowercasing, dropping
tokens that became empty. -/
def processedWords (text : String) : List (List Char) :=
  let tokens := (splitPred Char.isWhitespace text.data).filter (fun w => w ≠ [])
  let words := tokens.map (fun w => (stripPunct w).map Char.toLower)
  words.filter (fun w => w ≠ [])

/-- Occurrence count of `a` in `l` (one entry of a `Counter`). -/
def countOcc {α : Type} [DecidableEq α] (a : α) : List α → Nat
  | [] => 0
  | x :: xs => (if x = a then 1 else 0) + countOcc a xs

/-- Insert `x` into a strictly sorted list, keeping it strictly sorted
(duplicates are dropped). -/
def insertKey {α : Type} [LinearOrder α] (x : α) : List α → List α
  | [] => [x]
  | y :: ys => if x < y then x :: y :: ys else if x = y then y :: ys else y :: insertKey x ys

/-- The distinct elements of `l` in ascending order: the iteration order of
`sorted(Counter(l))`. -/
def sortedKeys {α : Type} [LinearOrder α] (l : List α) : List α :=
  l.foldr insertKey []

/-- The rows of `word_count.csv` (word + occurrence count), sorted by word:
`for word, count in sorted(word_counts.items())`. -/
def wordRows (text : String) : List (List Char × Nat) :=
  (sortedKeys (processedWords text)).map (fun w => (w, countOcc w (processedWords text)))

/-- Round half-to-even to an integer (Python's `round` tie-breaking). -/
def roundHalfEven (x : ℚ) : ℤ :=
  if x - (⌊x⌋ : ℚ) < 1 / 2 then ⌊x⌋
  else if x - (⌊x⌋ : ℚ) = 1 / 2 then (if ⌊x⌋ % 2 = 0 then ⌊x⌋ else ⌊x⌋ + 1)
  else ⌊x⌋ + 1

/-- Python `round(x, 2)` on the exact rational value. -/
def round2 (x : ℚ) : ℚ := (roundHalfEven (x * 100) : ℚ) / 100

/-- All alphabetic characters of the text, in order (`[ch for ch in text if ch.isalpha()]`). -/
def lettersOf (text : String) : List Char := text.data.filter Char.isAlpha

/-- One row of `letter_count.csv`. -/
structure LetterRow where
  letter : Char
  count_all : Nat
  count_upper : Nat
  percentage : ℚ
deriving DecidableEq

/-- The rows of `letter_count.csv`: for each distinct lowercased letter in
ascending order, its case-insensitive count, its uppercase-only count, and
`round(count_all / total_letters * 100, 2)` (`0` if there are no letters,
in which case there are no rows at all). -/
def letterRows (text : String) : List LetterRow :=
  let letters := lettersOf text
  let total := letters.length
  let lowers := letters.map Char.toLower
  (sortedKeys lowers).map (fun ch =>
    { letter := ch
      count_all := countOcc ch lowers
      count_upper := countOcc ch.toUpper (text.data.filter (fun c => c.isAlpha && c.isUpper))
      percentage :=
        if total = 0 then 0 else round2 ((countOcc ch lowers : ℚ) / (total : ℚ) * 100) })

/-! ## CSV rendering (`csv.writer` with the default dialect) -/

/-- Quote a CSV field when it contains a separator, quote, or line break
(`QUOTE_MINIMAL`), doubling interior quotes. -/
def csvField (s : String) : String :=
  if s.data.any (fun c => c = ',' ∨ c = Char.ofNat 34 ∨ c = '\n' ∨ c = '\r') then
    String.mk (Char.ofNat 34 ::
      (s.data.foldr (fun c acc =>
        if c = Char.ofNat 34 then Char.ofNat 34 :: Char.ofNat 34 :: acc else c :: acc)
        [Char.ofNat 34]))
  else s

/-- Join rendered fields with commas. -/
def joinComma : List String → String
  | [] => ""
  | [x] => x
  | x :: xs => x ++ "," ++ joinComma xs

/-- One CSV row with the writer's default `\r\n` terminator. -/
def csvRow (fields : List String) : String := joinComma (fields.map csvField) ++ "\r\n"

/-- Python `repr` of the float percentages produced by `round(_, 2)`:
the shortest decimal with at least one fractional digit. -/
def pctRepr (q : ℚ) : String :=
  let k := (q * 100).num.toNat
  let frac := k % 100
  toString (k / 100) ++ "." ++
    (if frac = 0 then "0"
     else if frac % 10 = 0 then toString (frac / 10)
     else if frac < 10 then "0" ++ toString frac
     else toString frac)

/-- Render the word-count rows. -/
def renderWordRows : List (List Char × Nat) → String
  | [] => ""
  | r :: rs => csvRow [String.mk r.1, toString r.2] ++ renderWordRows rs

/-- The full content of `word_count.csv`. -/
def renderWordCsv (rows : List (List Char × Nat)) : String :=
  csvRow ["word", "count"] ++ renderWordRows rows

/-- Render the letter-count rows. -/
def renderLetterRows : List LetterRow → String
  | [] => ""
  | r :: rs =>
    csvRow [String.mk [r.letter], toString r.count_all, toString r.count_upper,
      pctRepr r.percentage] ++ renderLetterRows rs

/-- The full content of `letter_count.csv`. -/
def renderLetterCsv (rows : List LetterRow) : String :=
  csvRow ["letter", "count_all", "count_uppercase", "percentage"] ++ renderLetterRows rows

/-- `NewsFeed.update_statistics`: recompute both artifacts from the full log
text, returning `(word_count.csv, letter_count.csv)` contents. -/
def update_statistics (text : String) : String × String :=
  (renderWordCsv (wordRows text), renderLetterCsv (letterRows text))

/-! ## Feed store (`NewsFeed`) -/

/-- The persistent state: the feed log and the two statistics artifacts. -/
structure FeedState where
  log : String
  word_csv : String
  letter_csv : String
deriving DecidableEq

/-- Overwrite both artifacts from the current log (`update_statistics` call). -/
def refreshFeed (st : FeedState) : FeedState :=
  { log := st.log
    word_csv := (update_statistics st.log).1
    letter_csv := (update_statistics st.log).2 }

/-- `NewsFeed.add_record`: append `record.format() + "\n"` to the log, then
refresh the statistics. -/
def add_record (st : FeedState) (r : Record) : FeedState :=
  refreshFeed { st with log := st.log ++ r.format ++ "\n" }

/-- The state with an empty (absent) log file. -/
def emptyFeed : FeedState := { log := "", word_csv := "", letter_csv := "" }

/-- Concatenation, in order, of each record's formatted block plus the blank
separator line. -/
def concatBlocks : List Record → String
  | [] => ""
  | r :: rs => (r.format ++ "\n") ++ concatBlocks rs

/-- `FileRecordImporter.import_to_feed`: parse, append every record in order,
then `os.remove` the source file; `removeOk = false` models a failing removal
whose `OSError` escapes after all appends are done. -/
def import_to_feed (content : String) (now : Nat) (feed : FeedState)
    (removeOk : Bool) : FeedState × Except String Unit :=
  let records := parse_records content now
  let feed2 := records.foldl add_record feed
  (feed2, if removeOk then Except.ok () else Except.error "OSError")

/-! ## Spec-side definitions (used to state refinement claims) -/

/-- The recognised type tags. -/
def recognizedTags : List String := ["News", "PrivateAd", "WeatherReport"]

/-- Variant construction from a tag and the two field lines. -/
def construct (tag f1 f2 : String) (now : Nat) : Option Record :=
  if tag = "News" then some (mkNews f1 f2 now)
  else if tag = "PrivateAd" then mkPrivateAd f1 f2 now
  else if tag = "WeatherReport" then some (mkWeatherReport f1 f2 now)
  else none

/-- Per-block behaviour as the spec describes it: a block contributes a record
exactly when its first non-blank line is a recognised tag, it has at least 3
non-blank lines, and variant construction from the next two lines succeeds. -/
def spec_parse_block (now : Nat) (raw : List Char) : Option Record :=
  match blockLines raw with
  | t :: f1 :: f2 :: _ => if t ∈ recognizedTags then construct t f1 f2 now else none
  | _ => none

/-- All characters are ASCII digits. -/
def allDigits (cs : List Char) : Prop := ∀ c ∈ cs, '0' ≤ c ∧ c ≤ '9'

/-- Numeric value of a digit string. -/
def digitsToNat (cs : List Char) : Nat := cs.foldl (fun a c => 10 * a + digitVal c) 0

/-- `s` is of the flexible year-month-day form actually accepted by
`strptime("%Y-%m-%d")`: a 4-digit year (at least 0001), a 1-or-2-digit month
in 1..12, and a 1-or-2-digit day valid for that month, separated by hyphens,
with nothing following. -/
def specFlexYmd (s : String) : Prop :=
  ∃ ys ms ds y m d,
    s.data = ys ++ '-' :: (ms ++ '-' :: ds) ∧
    allDigits ys ∧ ys.length = 4 ∧ digitsToNat ys = y ∧
    allDigits ms ∧ 1 ≤ ms.length ∧ ms.length ≤ 2 ∧ digitsToNat ms = m ∧
    allDigits ds ∧ 1 ≤ ds.length ∧ ds.length ≤ 2 ∧ digitsToNat ds = d ∧
    1 ≤ y ∧ 1 ≤ m ∧ m ≤ 12 ∧ 1 ≤ d ∧ d ≤ daysInMonth y m

/-- `s` is in strict `"YYYY-MM-DD"` form: 4-digit year, 2-digit month,
2-digit day, hyphens, denoting a valid calendar date. -/
def strictYmdForm (s : String) : Prop :=
  ∃ ys ms ds y m d,
    s.data = ys ++ '-' :: (ms ++ '-' :: ds) ∧
    allDigits ys ∧ ys.length = 4 ∧ digitsToNat ys = y ∧
    allDigits ms ∧ ms.length = 2 ∧ digitsToNat ms = m ∧
    allDigits ds ∧ ds.length = 2 ∧ digitsToNat ds = d ∧
    1 ≤ y ∧ 1 ≤ m ∧ m ≤ 12 ∧ 1 ≤ d ∧ d ≤ daysInMonth y m

/-! ## Lemmas about sorting and counting -/

theorem mem_insertKey {α : Type} [LinearOrder α] (x a : α) :
    ∀ l : List α, a ∈ insertKey x l ↔ a = x ∨ a ∈ l := by
  intro l
  induction l with
  | nil => simp [insertKey]
  | cons y ys ih =>
    simp only [insertKey]
    split_ifs with h1 h2
    · simp [List.mem_cons]
    · subst h2
      constructor
      · exact fun h => Or.inr h
      · rintro (rfl | h)
        · exact List.mem_cons_self _ _
        · exact h
    · simp only [List.mem_cons, ih]
      tauto

theorem pairwise_insertKey {α : Type} [LinearOrder α] (x : α) :
    ∀ l : List α, l.Pairwise (· < ·) → (insertKey x l).Pairwise (· < ·) := by
  intro l
  induction l with
  | nil => simp [insertKey]
  | cons y ys ih =>
    intro hp
    rcases List.pairwise_cons.mp hp with ⟨hy, hys⟩
    simp only [insertKey]
    split_ifs with h1 h2
    · refine List.pairwise_cons.mpr ⟨?_, hp⟩
      intro b hb
      rcases List.mem_cons.mp hb with rfl | hb'
      · exact h1
      · exact lt_trans h1 (hy b hb')
    · exact hp
    · have hyx : y < x := by
        rcases lt_trichotomy x y with h | h | h
        · exact absurd h h1
        · exact absurd h h2
        · exact h
      refine List.pairwise_cons.mpr ⟨?_, ih hys⟩
      intro b hb
      rcases (mem_insertKey x b ys).mp hb with rfl | hb'
      · exact hyx
      · exact hy b hb'

theorem pairwise_sortedKeys {α : Type} [LinearOrder α] (l : List α) :
    (sortedKeys l).Pairwise (· < ·) := by
  induction l with
  | nil => simp [sortedKeys]
  | cons x xs ih => exact pairwise_insertKey x _ ih

theorem mem_sortedKeys {α : Type} [LinearOrder α] (a : α) :
    ∀ l : List α, a ∈ sortedKeys l ↔ a ∈ l := by
  intro l
  induction l with
  | nil => simp [sortedKeys]
  | cons x xs ih =>
    show a ∈ insertKey x (sortedKeys xs) ↔ _
    rw [mem_insertKey, ih]
    simp [List.mem_cons]

theorem nodup_sortedKeys {α : Type} [LinearOrder α] (l : List α) :
    (sortedKeys l).Nodup :=
  (pairwise_sortedKeys l).imp ne_of_lt

theorem countOcc_pos {α : Type} [DecidableEq α] (a : α) (l : List α) (h : a ∈ l) :
    1 ≤ countOcc a l := by
  induction l with
  | nil => cases h
  | cons x xs ih =>
    rcases List.mem_cons.mp h with rfl | h'
    · simp [countOcc]
    · have := ih h'
      by_cases hx : x = a
      · simp [countOcc, hx]
      · simp [countOcc, hx]
        omega

theorem countOcc_filter_ne {α : Type} [DecidableEq α] (a k : α) (hak : a ≠ k) :
    ∀ l : List α, countOcc a (l.filter (fun x => ! decide (x = k))) = countOcc a l := by
  intro l
  induction l with
  | nil => rfl
  | cons x xs ih =>
    rw [List.filter_cons]
    by_cases hxk : x = k
    · have hxa : ¬ (x = a) := by
        rw [hxk]
        exact fun h => hak h.symm
      have hka : ¬ k = a := fun h => hak h.symm
      simp [hxk, countOcc, hka, ih]
    · simp [hxk, countOcc, ih]

theorem countOcc_add_filter_length {α : Type} [DecidableEq α] (k : α) :
    ∀ l : List α, countOcc k l + (l.filter (fun x => ! decide (x = k))).length = l.length := by
  intro l
  induction l with
  | nil => rfl
  | cons x xs ih =>
    rw [List.filter_cons]
    by_cases hxk : x = k <;> simp [countOcc, hxk] <;> omega

theorem sum_countOcc_of_cover {α : Type} [DecidableEq α] :
    ∀ (keys l : List α), keys.Nodup → (∀ a, a ∈ keys ↔ a ∈ l) →
      (keys.map (fun a => countOcc a l)).sum = l.length := by
  intro keys
  induction keys with
  | nil =>
    intro l _ hmem
    have hl : l = [] := List.eq_nil_iff_forall_not_mem.mpr
      (fun a ha => by simpa using (hmem a).mpr ha)
    simp [hl]
  | cons k ks ih =>
    intro l hnd hmem
    rcases List.pairwise_cons.mp hnd with ⟨hk, hnd'⟩
    have hstep : ∀ a ∈ ks, countOcc a l = countOcc a (l.filter (fun x => ! decide (x = k))) := by
      intro a ha
      exact (countOcc_filter_ne a k (fun h => hk a ha h.symm) l).symm
    have hmem' : ∀ a, a ∈ ks ↔ a ∈ l.filter (fun x => ! decide (x = k)) := by
      intro a
      constructor
      · intro ha
        refine List.mem_filter.mpr ⟨(hmem a).mp (List.mem_cons_of_mem _ ha), ?_⟩
        simp
        exact fun h => hk a ha h.symm
      · intro ha
        rcases List.mem_filter.mp ha with ⟨hal, hne⟩
        rcases List.mem_cons.mp ((hmem a).mpr hal) with rfl | h
        · simp at hne
        · exact h
    have hmap : (ks.map (fun a => countOcc a l)).sum =
        (ks.map (fun a => countOcc a (l.filter (fun x => ! decide (x = k))))).sum := by
      congr 1
      exact List.map_congr_left hstep
    calc ((k :: ks).map (fun a => countOcc a l)).sum
        = countOcc k l + (ks.map (fun a => countOcc a l)).sum := by simp
      _ = countOcc k l + (l.filter (fun x => ! decide (x = k))).length := by
          rw [hmap, ih _ hnd' hmem']
      _ = l.length := countOcc_add_filter_length k l

/-- Sum over the distinct sorted keys of the occurrence counts gives back the
total number of elements. -/
theorem sum_countOcc_sortedKeys {α : Type} [LinearOrder α] [DecidableEq α] (l : List α) :
    ((sortedKeys l).map (fun a => countOcc a l)).sum = l.length :=
  sum_countOcc_of_cover (sortedKeys l) l (nodup_sortedKeys l) (fun a => mem_sortedKeys a l)

theorem wordRows_keys (text : String) :
    (wordRows text).map Prod.fst = sortedKeys (processedWords text) := by
  simp only [wordRows, List.map_map]
  exact List.map_id _

/-- C4: the word-count table counts the occurrences of the whitespace-split,
end-punctuation-stripped, lowercased, non-empty tokens of the log text; its
rows are sorted strictly ascending by word (hence no duplicate words) and
every count is at least 1. -/
theorem C4_word_count_table (text : String) :
    ((wordRows text).map Prod.fst).Pairwise (· < ·) ∧
    (∀ p ∈ wordRows text, p.2 = countOcc p.1 (processedWords text) ∧ 1 ≤ p.2) ∧
    (∀ w : List Char, (∃ n, (w, n) ∈ wordRows text) ↔ w ∈ processedWords text) := by
  refine ⟨?_, ?_, ?_⟩
  · rw [wordRows_keys]
    exact pairwise_sortedKeys _
  · intro p hp
    rcases List.mem_map.mp hp with ⟨w, hw, rfl⟩
    exact ⟨rfl, countOcc_pos _ _ ((mem_sortedKeys w _).mp hw)⟩
  · intro w
    constructor
    · rintro ⟨n, hn⟩
      rcases List.mem_map.mp hn with ⟨w', hw', heq⟩
      rcases Prod.ext_iff.mp heq with ⟨hw1, _⟩
      have hw1' : w' = w := hw1
      exact (mem_sortedKeys w _).mp (hw1' ▸ hw')
    · intro hw
      exact ⟨countOcc w (processedWords text),
        List.mem_map.mpr ⟨w, (mem_sortedKeys w _).mpr hw, rfl⟩⟩

theorem C4_word_count_table_witness :
    ((['h', 'i'], 2) : List Char × Nat).2 =
        countOcc (['h', 'i'] : List Char) (processedWords "Hi hi!") ∧
      1 ≤ ((['h', 'i'], 2) : List Char × Nat).2 :=
  (C4_word_count_table "Hi hi!").2.1 (['h', 'i'], 2) (by decide)

/-! ## Rounding and summation lemmas -/

theorem roundHalfEven_abs_le (x : ℚ) : |(roundHalfEven x : ℚ) - x| ≤ 1 / 2 := by
  have h0 : ((⌊x⌋ : ℚ)) ≤ x := Int.floor_le x
  have h1 : x < (⌊x⌋ : ℚ) + 1 := Int.lt_floor_add_one x
  unfold roundHalfEven
  split_ifs with hlt heq hev
  · rw [abs_le]
    constructor <;> linarith
  · rw [abs_le]
    constructor <;> linarith
  · rw [abs_le]
    push_cast
    constructor <;> linarith
  · have h2 : 1 / 2 ≤ x - (⌊x⌋ : ℚ) := not_lt.mp hlt
    rw [abs_le]
    push_cast
    constructor <;> linarith

theorem round2_abs_le (x : ℚ) : |round2 x - x| ≤ 1 / 200 := by
  have h := roundHalfEven_abs_le (x * 100)
  unfold round2
  have he : (roundHalfEven (x * 100) : ℚ) / 100 - x
      = ((roundHalfEven (x * 100) : ℚ) - x * 100) / 100 := by ring
  rw [he, abs_div]
  have h100 : |(100 : ℚ)| = 100 := by norm_num
  rw [h100]
  linarith

theorem map_sum_sub {α : Type} (l : List α) (f g : α → ℚ) :
    (l.map (fun a => f a - g a)).sum = (l.map f).sum - (l.map g).sum := by
  induction l with
  | nil => simp
  | cons x xs ih =>
    simp only [List.map_cons, List.sum_cons, ih]
    ring

theorem abs_map_sum_le {α : Type} (l : List α) (f : α → ℚ) (B : ℚ)
    (h : ∀ a ∈ l, |f a| ≤ B) :
    |(l.map f).sum| ≤ (l.length : ℚ) * B := by
  induction l with
  | nil => simp
  | cons x xs ih =>
    simp only [List.map_cons, List.sum_cons, List.length_cons]
    have h1 := h x (List.mem_cons_self x xs)
    have h2 := ih (fun a ha => h a (List.mem_cons_of_mem _ ha))
    have h3 : |f x + (xs.map f).sum| ≤ |f x| + |(xs.map f).sum| := abs_add _ _
    push_cast
    nlinarith [abs_nonneg (f x)]

theorem map_sum_mul_right {α : Type} (l : List α) (f : α → ℚ) (c : ℚ) :
    (l.map (fun a => f a * c)).sum = (l.map f).sum * c := by
  induction l with
  | nil => simp
  | cons x xs ih =>
    simp only [List.map_cons, List.sum_cons, ih]
    ring

theorem map_sum_natCast {α : Type} (l : List α) (g : α → ℕ) :
    (l.map (fun a => (g a : ℚ))).sum = (((l.map g).sum : ℕ) : ℚ) := by
  induction l with
  | nil => simp
  | cons x xs ih =>
    simp only [List.map_cons, List.sum_cons, ih]
    push_cast
    ring

theorem letterRows_eq (text : String) :
    letterRows text = (sortedKeys ((lettersOf text).map Char.toLower)).map (fun ch =>
      { letter := ch
        count_all := countOcc ch ((lettersOf text).map Char.toLower)
        count_upper := countOcc ch.toUpper (text.data.filter (fun c => c.isAlpha && c.isUpper))
        percentage :=
          if (lettersOf text).length = 0 then 0
          else round2 ((countOcc ch ((lettersOf text).map Char.toLower) : ℚ)
            / ((lettersOf text).length : ℚ) * 100) }) := rfl

/-- C5: every letter row's percentage is `round2` of 100 times its count over
the total alphabetic count; rows are sorted strictly ascending by letter; the
table has no rows when the text has no alphabetic characters; and when it has
some, the percentages sum to 100 up to the accumulated rounding tolerance of
1/200 per row. -/
theorem C5_letter_percentages (text : String) :
    ((letterRows text).map LetterRow.letter).Pairwise (· < ·) ∧
    (∀ r ∈ letterRows text,
        r.percentage = round2 ((r.count_all : ℚ) / ((lettersOf text).length : ℚ) * 100)) ∧
    (lettersOf text = [] → letterRows text = []) ∧
    (lettersOf text ≠ [] →
        |((letterRows text).map LetterRow.percentage).sum - 100|
          ≤ ((letterRows text).length : ℚ) / 200) := by
  refine ⟨?_, ?_, ?_, ?_⟩
  · rw [letterRows_eq, List.map_map]
    exact List.pairwise_map.mpr (pairwise_sortedKeys _)
  · intro r hr
    rw [letterRows_eq] at hr
    rcases List.mem_map.mp hr with ⟨ch, hch, rfl⟩
    have hmem : ch ∈ (lettersOf text).map Char.toLower := (mem_sortedKeys ch _).mp hch
    have hne : (lettersOf text).length ≠ 0 := by
      intro h0
      have h1 : ((lettersOf text).map Char.toLower).length = 0 := by
        simp [List.length_map, h0]
      rw [List.length_eq_zero] at h1
      simp [h1] at hmem
    simp [hne]
  · intro h
    rw [letterRows_eq]
    simp [h, sortedKeys]
  · intro hne
    have hlen0 : (lettersOf text).length ≠ 0 := by
      intro h0
      exact hne (List.length_eq_zero.mp h0)
    have hT : ((lettersOf text).length : ℚ) ≠ 0 := Nat.cast_ne_zero.mpr hlen0
    have hmappct : (letterRows text).map LetterRow.percentage
        = (sortedKeys ((lettersOf text).map Char.toLower)).map
            (fun ch => round2 ((countOcc ch ((lettersOf text).map Char.toLower) : ℚ)
              / ((lettersOf text).length : ℚ) * 100)) := by
      rw [letterRows_eq, List.map_map]
      apply List.map_congr_left
      intro ch _
      simp [hlen0]
    have hlensum : ((sortedKeys ((lettersOf text).map Char.toLower)).map
          (fun ch => (countOcc ch ((lettersOf text).map Char.toLower) : ℚ))).sum
        = ((lettersOf text).length : ℚ) := by
      rw [map_sum_natCast, sum_countOcc_sortedKeys]
      simp [List.length_map]
    have hsumx : ((sortedKeys ((lettersOf text).map Char.toLower)).map
          (fun ch => (countOcc ch ((lettersOf text).map Char.toLower) : ℚ)
            / ((lettersOf text).length : ℚ) * 100)).sum = 100 := by
      have h1 : ((sortedKeys ((lettersOf text).map Char.toLower)).map
            (fun ch => (countOcc ch ((lettersOf text).map Char.toLower) : ℚ)
              / ((lettersOf text).length : ℚ) * 100)).sum
          = ((sortedKeys ((lettersOf text).map Char.toLower)).map
              (fun ch => (countOcc ch ((lettersOf text).map Char.toLower) : ℚ)
                * (100 / ((lettersOf text).length : ℚ)))).sum := by
        apply congrArg
        apply List.map_congr_left
        intro ch _
        ring
      rw [h1, map_sum_mul_right, hlensum]
      field_simp
    have hs : ((sortedKeys ((lettersOf text).map Char.toLower)).map
          (fun ch => round2 ((countOcc ch ((lettersOf text).map Char.toLower) : ℚ)
              / ((lettersOf text).length : ℚ) * 100)
            - (countOcc ch ((lettersOf text).map Char.toLower) : ℚ)
              / ((lettersOf text).length : ℚ) * 100)).sum
        = ((sortedKeys ((lettersOf text).map Char.toLower)).map
            (fun ch => round2 ((countOcc ch ((lettersOf text).map Char.toLower) : ℚ)
              / ((lettersOf text).length : ℚ) * 100))).sum - 100 := by
      rw [map_sum_sub, hsumx]
    have hbound := abs_map_sum_le (sortedKeys ((lettersOf text).map Char.toLower))
      (fun ch => round2 ((countOcc ch ((lettersOf text).map Char.toLower) : ℚ)
          / ((lettersOf text).length : ℚ) * 100)
        - (countOcc ch ((lettersOf text).map Char.toLower) : ℚ)
          / ((lettersOf text).length : ℚ) * 100)
      (1 / 200) (fun a _ => round2_abs_le _)
    rw [hs] at hbound
    rw [hmappct]
    have hlen : (letterRows text).length
        = (sortedKeys ((lettersOf text).map Char.toLower)).length := by
      rw [letterRows_eq, List.length_map]
    rw [hlen]
    calc |((sortedKeys ((lettersOf text).map Char.toLower)).map
            (fun ch => round2 ((countOcc ch ((lettersOf text).map Char.toLower) : ℚ)
              / ((lettersOf text).length : ℚ) * 100))).sum - 100|
        ≤ ((sortedKeys ((lettersOf text).map Char.toLower)).length : ℚ) * (1 / 200) := hbound
      _ = ((sortedKeys ((lettersOf text).map Char.toLower)).length : ℚ) / 200 := by ring

theorem C5_letter_percentages_witness :
    |((letterRows "Ab").map LetterRow.percentage).sum - 100|
      ≤ ((letterRows "Ab").length : ℚ) / 200 :=
  (C5_letter_percentages "Ab").2.2.2 (by decide)

/-! ## Parser refinement -/

theorem parse_records_go_eq (now : Nat) :
    ∀ (raws : List (List Char)) (records : List Record),
      parse_records_go now raws records
        = records ++ raws.filterMap (spec_parse_block now) := by
  intro raws
  induction raws with
  | nil =>
    intro records
    simp [parse_records_go]
  | cons raw rest ih =>
    intro records
    cases hbl : blockLines raw with
    | nil => simp [parse_records_go, hbl, spec_parse_block, ih]
    | cons t ts =>
      cases ts with
      | nil => simp [parse_records_go, hbl, spec_parse_block, ih]
      | cons f1 fs =>
        cases fs with
        | nil => simp [parse_records_go, hbl, spec_parse_block, ih]
        | cons f2 rest2 =>
          have h3 : 3 ≤ (t :: f1 :: f2 :: rest2).length := by
            simp [List.length_cons]
          by_cases ht1 : t = "News"
          · subst ht1
            simp [parse_records_go, hbl, h3, spec_parse_block, recognizedTags, construct, ih]
          · by_cases ht2 : t = "PrivateAd"
            · subst ht2
              cases hpa : mkPrivateAd f1 f2 now with
              | none =>
                simp [parse_records_go, hbl, h3, spec_parse_block, recognizedTags,
                  construct, hpa, ih]
              | some r =>
                simp [parse_records_go, hbl, h3, spec_parse_block, recognizedTags,
                  construct, hpa, ih]
            · by_cases ht3 : t = "WeatherReport"
              · subst ht3
                simp [parse_records_go, hbl, h3, spec_parse_block, recognizedTags,
                  construct, ih]
              · simp [parse_records_go, hbl, spec_parse_block, recognizedTags,
                  construct, ht1, ht2, ht3, ih]

/-- C1: `parse_records` returns, in block order, exactly the records of the
blank-line-delimited blocks whose first non-blank line is a recognised tag,
which have at least 3 non-blank lines, and whose variant construction
succeeds; every other block is skipped without aborting the remaining ones
(`filterMap` of the per-block spec over the block list). -/
theorem C1_parse_records_blocks (content : String) (now : Nat) :
    parse_records content now
      = (splitOn2NL (pyStrip content.data)).filterMap (spec_parse_block now) := by
  unfold parse_records
  simpa using parse_records_go_eq now (splitOn2NL (pyStrip content.data)) []

/-- C10 counterexample: a block with the recognised tag `PrivateAd` and four
non-blank lines whose third line is a bad date IS skipped, so "a recognised
tag and more than 3 non-blank lines" alone does not prevent skipping. -/
theorem C10_counterexample :
    (blockLines "PrivateAd\nx\nnotadate\nextra".data).head? = some "PrivateAd" ∧
    3 < (blockLines "PrivateAd\nx\nnotadate\nextra".data).length ∧
    parse_records "PrivateAd\nx\nnotadate\nextra" 0 = [] := by
  decide

/-- C10 (amended): a block whose first non-blank line is a recognised tag and
that has at least 3 non-blank lines is parsed from only the second and third
non-blank lines, all further lines being ignored; it is not skipped provided
variant construction succeeds, which is automatic for `News` and
`WeatherReport` and means a parseable date for `PrivateAd`. -/
theorem C10_extra_lines_ignored (now : Nat) (raw : List Char) (t f1 f2 : String)
    (rest : List String) (hbl : blockLines raw = t :: f1 :: f2 :: rest)
    (ht : t ∈ recognizedTags) :
    spec_parse_block now raw = construct t f1 f2 now ∧
    (t = "News" ∨ t = "WeatherReport" → (spec_parse_block now raw).isSome = true) ∧
    (t = "PrivateAd" →
      ((spec_parse_block now raw).isSome = true ↔ (strptimeYmd f2).isSome = true)) := by
  have hmain : spec_parse_block now raw = construct t f1 f2 now := by
    simp [spec_parse_block, hbl, ht]
  refine ⟨hmain, ?_, ?_⟩
  · rintro (rfl | rfl)
    · rw [hmain]
      rfl
    · rw [hmain]
      rfl
  · rintro rfl
    rw [hmain]
    have hc : construct "PrivateAd" f1 f2 now = mkPrivateAd f1 f2 now := rfl
    rw [hc]
    cases hs : strptimeYmd f2 with
    | none => simp [mkPrivateAd, hs]
    | some v =>
      obtain ⟨y, m, d⟩ := v
      simp [mkPrivateAd, hs]

theorem C10_extra_lines_ignored_witness :
    spec_parse_block 0 "News\na\nb\nc\nd".data = construct "News" "a" "b" 0 :=
  (C10_extra_lines_ignored 0 ("News\na\nb\nc\nd".data) "News" "a" "b" ["c", "d"]
    (by decide) (by decide)).1

/-! ## Days-left arithmetic -/

theorem fdiv_mul_le_and_lt (a : Int) {b : Int} (hb : 0 < b) :
    (a.fdiv b) * b ≤ a ∧ a < (a.fdiv b + 1) * b := by
  rw [Int.fdiv_eq_ediv _ (le_of_lt hb)]
  have h1 := Int.ediv_add_emod a b
  have h2 := Int.emod_nonneg a (ne_of_gt hb)
  have h3 := Int.emod_lt_of_pos a hb
  have hc : (a / b) * b = b * (a / b) := mul_comm _ _
  constructor
  · linarith
  · have hd : (a / b + 1) * b = b * (a / b) + b := by ring
    linarith

/-- C3: for every string accepted by `strptime("%Y-%m-%d")`, the stored
`days_left` is precisely the floor of the day difference between the
expiration midnight and the construction instant (both in microseconds), and
it is negative whenever the expiration instant lies in the past. -/
theorem C3_days_left (text s : String) (now y m d : Nat)
    (h : strptimeYmd s = some (y, m, d)) :
    ∃ dl : Int, mkPrivateAd text s now = some (.privateAd text y m d dl) ∧
      dl * (usPerDay : Int) ≤ (expMicros y m d : Int) - (now : Int) ∧
      (expMicros y m d : Int) - (now : Int) < (dl + 1) * (usPerDay : Int) ∧
      ((expMicros y m d : Int) < (now : Int) → dl < 0) := by
  have hb : (0 : Int) < (usPerDay : Int) := by norm_num [usPerDay]
  refine ⟨((expMicros y m d : Int) - (now : Int)).fdiv (usPerDay : Int), ?_, ?_, ?_, ?_⟩
  · simp [mkPrivateAd, h]
  · exact (fdiv_mul_le_and_lt _ hb).1
  · exact (fdiv_mul_le_and_lt _ hb).2
  · intro hlt
    rcases fdiv_mul_le_and_lt ((expMicros y m d : Int) - (now : Int)) hb with ⟨hle, _⟩
    by_contra hge
    push_neg at hge
    have hnn : 0 ≤ (((expMicros y m d : Int) - (now : Int)).fdiv (usPerDay : Int))
        * (usPerDay : Int) := mul_nonneg hge (le_of_lt hb)
    linarith

theorem C3_days_left_witness :
    ∃ dl : Int, mkPrivateAd "Ad" "0001-01-02" 0 = some (.privateAd "Ad" 1 1 2 dl) ∧
      dl * (usPerDay : Int) ≤ (expMicros 1 1 2 : Int) - ((0 : Nat) : Int) ∧
      (expMicros 1 1 2 : Int) - ((0 : Nat) : Int) < (dl + 1) * (usPerDay : Int) ∧
      ((expMicros 1 1 2 : Int) < ((0 : Nat) : Int) → dl < 0) :=
  C3_days_left "Ad" "0001-01-02" 0 1 1 2 (by decide)

/-! ## Feed store -/

theorem str_append_assoc (a b c : String) : a ++ b ++ c = a ++ (b ++ c) := by
  apply String.ext
  simp [String.data_append, List.append_assoc]

theorem foldl_add_record_log (rs : List Record) :
    ∀ st : FeedState, (rs.foldl add_record st).log = st.log ++ concatBlocks rs := by
  induction rs with
  | nil =>
    intro st
    show st.log = st.log ++ ""
    apply String.ext
    simp [String.data_append]
  | cons r rs ih =>
    intro st
    simp only [List.foldl_cons, concatBlocks]
    rw [ih]
    have hlog : (add_record st r).log = st.log ++ r.format ++ "\n" := rfl
    rw [hlog]
    apply String.ext
    simp [String.data_append, List.append_assoc]

/-- C7: `add_record` appends exactly the record's formatted block plus a blank
separator line to the log (leaving everything before unchanged), and both
artifacts become the statistics of the new log; consequently a sequence of
appends from the empty log yields the concatenation of the formatted blocks
in arrival order. -/
theorem C7_add_record (st : FeedState) (r : Record) (rs : List Record) :
    (add_record st r).log = st.log ++ (r.format ++ "\n") ∧
    (add_record st r).word_csv = (update_statistics ((add_record st r).log)).1 ∧
    (add_record st r).letter_csv = (update_statistics ((add_record st r).log)).2 ∧
    (List.foldl add_record emptyFeed rs).log = concatBlocks rs := by
  refine ⟨?_, rfl, rfl, ?_⟩
  · exact str_append_assoc st.log r.format "\n"
  · rw [foldl_add_record_log]
    show (("" : String) ++ concatBlocks rs) = concatBlocks rs
    apply String.ext
    simp [String.data_append]

/-- C8: import-to-feed appends every parsed record, in order, via
`add_record` (one statistics refresh each) before attempting to delete the
source file; the deletion failure is surfaced as an error, and the resulting
feed state is identical whether or not the deletion succeeds (no rollback). -/
theorem C8_import_to_feed (content : String) (now : Nat) (feed : FeedState)
    (removeOk : Bool) :
    (import_to_feed content now feed removeOk).1
        = (parse_records content now).foldl add_record feed ∧
    (import_to_feed content now feed removeOk).1.log
        = feed.log ++ concatBlocks (parse_records content now) ∧
    ((import_to_feed content now feed removeOk).2 = Except.ok () ↔ removeOk = true) ∧
    (import_to_feed content now feed false).1 = (import_to_feed content now feed true).1 := by
  refine ⟨rfl, foldl_add_record_log _ _, ?_, rfl⟩
  cases removeOk <;> simp [import_to_feed]

/-- C9: each variant's `format()` output is a function of the fields stored at
construction alone (including the timestamp captured then), so repeated calls
on the same record yield the same string and the output never changes after
construction. -/
theorem C9_format_deterministic (t c x : String) (now : Nat) (y m d : Nat) (dl : Int) :
    (mkNews t c now).format
        = "News -------------------------\n" ++ t ++ "\n" ++ c ++ ", "
          ++ strftimeDateMin now ++ "\n" ∧
    (Record.privateAd x y m d dl).format
        = "Private Ad ------------------\n" ++ x ++ "\nActual until: " ++ zpad 4 y ++ "-"
          ++ zpad 2 m ++ "-" ++ zpad 2 d ++ ", " ++ toString dl ++ " days left\n" ∧
    (mkWeatherReport c t now).format
        = "Weather Report --------------\nCity: " ++ c ++ "\nTemperature: " ++ t
          ++ "°C\nReported at: " ++ strftimeDateMin now ++ "\n" :=
  ⟨rfl, rfl, rfl⟩

/-- C6: the statistics artifacts are a deterministic function of the log text
alone, and recomputing them twice over an unchanged log is idempotent. -/
theorem C6_statistics_idempotent (s1 s2 : FeedState) (h : s1.log = s2.log) :
    refreshFeed (refreshFeed s1) = refreshFeed s1 ∧
    (refreshFeed s1).word_csv = (refreshFeed s2).word_csv ∧
    (refreshFeed s1).letter_csv = (refreshFeed s2).letter_csv := by
  refine ⟨rfl, ?_, ?_⟩
  · simp [refreshFeed, h]
  · simp [refreshFeed, h]

theorem C6_statistics_idempotent_witness :
    refreshFeed (refreshFeed emptyFeed) = refreshFeed emptyFeed :=
  (C6_statistics_idempotent emptyFeed emptyFeed rfl).1

/-! ## Correctness of the `strptime` model -/

theorem char_eq_of_toNat {a b : Char} (h : a.toNat = b.toNat) : a = b :=
  Char.ext (UInt32.ext h)

theorem isDigit_iff (c : Char) : c.isDigit = true ↔ '0' ≤ c ∧ c ≤ '9' := by
  simp [Char.isDigit, Bool.and_eq_true, decide_eq_true_eq]
  exact Iff.rfl

theorem digit_toNat_bounds {c : Char} (h : '0' ≤ c ∧ c ≤ '9') :
    48 ≤ c.toNat ∧ c.toNat ≤ 57 := h

theorem digitVal_eq {c : Char} : digitVal c = c.toNat - 48 := rfl

theorem digitsToNat_one (c : Char) : digitsToNat [c] = digitVal c := by
  simp [digitsToNat]

theorem digitsToNat_two (c0 c1 : Char) :
    digitsToNat [c0, c1] = 10 * digitVal c0 + digitVal c1 := by
  simp [digitsToNat]

theorem digitsToNat_four (a b c d : Char) :
    digitsToNat [a, b, c, d]
      = 1000 * digitVal a + 100 * digitVal b + 10 * digitVal c + digitVal d := by
  simp [digitsToNat]
  ring

theorem some_pair_inj {γ δ : Type} {a c : γ} {b d : δ}
    (h : (some (a, b) : Option (γ × δ)) = some (c, d)) : a = c ∧ b = d := by
  simpa using h

theorem readYear_sound {cs : List Char} {y : Nat} {r : List Char}
    (h : readYear cs = some (y, r)) :
    ∃ ys, cs = ys ++ r ∧ allDigits ys ∧ ys.length = 4 ∧ digitsToNat ys = y := by
  rcases cs with _ | ⟨a, _ | ⟨b, _ | ⟨c, _ | ⟨d, rest⟩⟩⟩⟩
  · simp [readYear] at h
  · simp [readYear] at h
  · simp [readYear] at h
  · simp [readYear] at h
  · simp only [readYear] at h
    split_ifs at h with hdig
    · rcases some_pair_inj h with ⟨hy, hr⟩
      simp only [Bool.and_eq_true] at hdig
      rcases hdig with ⟨⟨⟨ha, hb⟩, hc⟩, hd⟩
      refine ⟨[a, b, c, d], by simp [hr], ?_, rfl, ?_⟩
      · intro x hx
        rcases List.mem_cons.mp hx with rfl | hx
        · exact (isDigit_iff x).mp ha
        rcases List.mem_cons.mp hx with rfl | hx
        · exact (isDigit_iff x).mp hb
        rcases List.mem_cons.mp hx with rfl | hx
        · exact (isDigit_iff x).mp hc
        rcases List.mem_cons.mp hx with rfl | hx
        · exact (isDigit_iff x).mp hd
        · cases hx
      · rw [digitsToNat_four, hy]

theorem readYear_complete (a b c d : Char) (rest : List Char)
    (h : allDigits [a, b, c, d]) :
    readYear (a :: b :: c :: d :: rest) = some (digitsToNat [a, b, c, d], rest) := by
  have ha := (isDigit_iff a).mpr (h a (by simp))
  have hb := (isDigit_iff b).mpr (h b (by simp))
  have hc := (isDigit_iff c).mpr (h c (by simp))
  have hd := (isDigit_iff d).mpr (h d (by simp))
  simp only [readYear]
  rw [if_pos (by simp [ha, hb, hc, hd]), digitsToNat_four]

theorem allDigits_nil : allDigits ([] : List Char) := by
  intro x hx
  cases hx

theorem allDigits_cons {c : Char} {cs : List Char} (h1 : '0' ≤ c ∧ c ≤ '9')
    (h2 : allDigits cs) : allDigits (c :: cs) := by
  intro x hx
  rcases List.mem_cons.mp hx with rfl | hx
  · exact h1
  · exact h2 x hx

theorem digit_char_cases {c : Char} (h : '0' ≤ c ∧ c ≤ '9') :
    c = '0' ∨ c = '1' ∨ c = '2' ∨ c = '3' ∨ c = '4' ∨ c = '5' ∨ c = '6' ∨ c = '7'
      ∨ c = '8' ∨ c = '9' := by
  have hb : 48 ≤ c.toNat ∧ c.toNat ≤ 57 := h
  have hn : c.toNat = 48 ∨ c.toNat = 49 ∨ c.toNat = 50 ∨ c.toNat = 51 ∨ c.toNat = 52
      ∨ c.toNat = 53 ∨ c.toNat = 54 ∨ c.toNat = 55 ∨ c.toNat = 56 ∨ c.toNat = 57 := by
    omega
  rcases hn with h' | h' | h' | h' | h' | h' | h' | h' | h' | h'
  · exact Or.inl (char_eq_of_toNat (by rw [h']; rfl))
  · exact Or.inr (Or.inl (char_eq_of_toNat (by rw [h']; rfl)))
  · exact Or.inr (Or.inr (Or.inl (char_eq_of_toNat (by rw [h']; rfl))))
  · exact Or.inr (Or.inr (Or.inr (Or.inl (char_eq_of_toNat (by rw [h']; rfl)))))
  · exact Or.inr (Or.inr (Or.inr (Or.inr (Or.inl (char_eq_of_toNat (by rw [h']; rfl))))))
  · exact Or.inr (Or.inr (Or.inr (Or.inr (Or.inr (Or.inl (char_eq_of_toNat (by rw [h']; rfl)))))))
  · exact Or.inr (Or.inr (Or.inr (Or.inr (Or.inr (Or.inr (Or.inl (char_eq_of_toNat (by
      rw [h']; rfl))))))))
  · exact Or.inr (Or.inr (Or.inr (Or.inr (Or.inr (Or.inr (Or.inr (Or.inl (char_eq_of_toNat (by
      rw [h']; rfl)))))))))
  · exact Or.inr (Or.inr (Or.inr (Or.inr (Or.inr (Or.inr (Or.inr (Or.inr (Or.inl
      (char_eq_of_toNat (by rw [h']; rfl))))))))))
  · exact Or.inr (Or.inr (Or.inr (Or.inr (Or.inr (Or.inr (Or.inr (Or.inr (Or.inr
      (char_eq_of_toNat (by rw [h']; rfl))))))))))

theorem readMonth_sound {cs : List Char} {m : Nat} {r : List Char}
    (h : readMonth cs = some (m, r)) :
    ∃ ms, cs = ms ++ r ∧ allDigits ms ∧ 1 ≤ ms.length ∧ ms.length ≤ 2 ∧
      digitsToNat ms = m ∧ 1 ≤ m ∧ m ≤ 12 := by
  rcases cs with _ | ⟨c, _ | ⟨c2, rest2⟩⟩
  · simp [readMonth] at h
  · simp only [readMonth] at h
    split_ifs at h with h1 h0 h19
    · obtain ⟨rfl, rfl⟩ := some_pair_inj h
      subst h1
      exact ⟨['1'], by simp, allDigits_cons (by decide) allDigits_nil,
        by decide, by decide, by decide, by decide, by decide⟩
    · obtain ⟨rfl, rfl⟩ := some_pair_inj h
      have hb : 49 ≤ c.toNat ∧ c.toNat ≤ 57 := h19
      refine ⟨[c], by simp, allDigits_cons ⟨?_, ?_⟩ allDigits_nil, by simp, by simp,
        by rw [digitsToNat_one], ?_, ?_⟩
      · show 48 ≤ c.toNat
        omega
      · show c.toNat ≤ 57
        omega
      · rw [digitVal_eq]
        omega
      · rw [digitVal_eq]
        omega
  · simp only [readMonth] at h
    split_ifs at h with h1 h02 h0 h29 h19
    · obtain ⟨rfl, rfl⟩ := some_pair_inj h
      subst h1
      have hb : 48 ≤ c2.toNat ∧ c2.toNat ≤ 50 := h02
      refine ⟨['1', c2], by simp, allDigits_cons (by decide)
        (allDigits_cons ⟨h02.1, show c2.toNat ≤ 57 by omega⟩ allDigits_nil),
        by simp, by simp, ?_, by omega, ?_⟩
      · rw [digitsToNat_two]
        have h1v : digitVal '1' = 1 := rfl
        omega
      · rw [digitVal_eq]
        omega
    · obtain ⟨rfl, rfl⟩ := some_pair_inj h
      subst h1
      exact ⟨['1'], by simp, allDigits_cons (by decide) allDigits_nil,
        by decide, by decide, by decide, by decide, by decide⟩
    · obtain ⟨rfl, rfl⟩ := some_pair_inj h
      subst h0
      have hb : 49 ≤ c2.toNat ∧ c2.toNat ≤ 57 := h29
      refine ⟨['0', c2], by simp, allDigits_cons (by decide)
        (allDigits_cons ⟨show 48 ≤ c2.toNat by omega, show c2.toNat ≤ 57 by omega⟩
          allDigits_nil),
        by simp, by simp, ?_, ?_, ?_⟩
      · rw [digitsToNat_two]
        have h0v : digitVal '0' = 0 := rfl
        omega
      · rw [digitVal_eq]
        omega
      · rw [digitVal_eq]
        omega
    · obtain ⟨rfl, rfl⟩ := some_pair_inj h
      have hb : 49 ≤ c.toNat ∧ c.toNat ≤ 57 := h19
      refine ⟨[c], by simp, allDigits_cons ⟨show 48 ≤ c.toNat by omega,
        show c.toNat ≤ 57 by omega⟩ allDigits_nil, by simp, by simp,
        by rw [digitsToNat_one], ?_, ?_⟩
      · rw [digitVal_eq]
        omega
      · rw [digitVal_eq]
        omega

theorem readMonth_complete (ms : List Char) (m : Nat) (ds : List Char)
    (hdig : allDigits ms) (hlen1 : 1 ≤ ms.length) (hlen2 : ms.length ≤ 2)
    (hval : digitsToNat ms = m) (hm1 : 1 ≤ m) (hm2 : m ≤ 12) :
    readMonth (ms ++ '-' :: ds) = some (m, '-' :: ds) := by
  rcases ms with _ | ⟨c0, _ | ⟨c1, _ | ⟨c2, tl⟩⟩⟩
  · simp at hlen1
  · subst hval
    rcases digit_char_cases (hdig c0 (by simp)) with
      rfl | rfl | rfl | rfl | rfl | rfl | rfl | rfl | rfl | rfl
    · exact absurd hm1 (by decide)
    all_goals rfl
  · subst hval
    rcases digit_char_cases (hdig c0 (by simp)) with
        rfl | rfl | rfl | rfl | rfl | rfl | rfl | rfl | rfl | rfl <;>
      rcases digit_char_cases (hdig c1 (by simp)) with
        rfl | rfl | rfl | rfl | rfl | rfl | rfl | rfl | rfl | rfl <;>
      first
        | rfl
        | exact absurd hm1 (by decide)
        | exact absurd hm2 (by decide)
  · simp at hlen2

theorem readDay_sound {cs : List Char} {d : Nat} {r : List Char}
    (h : readDay cs = some (d, r)) :
    ∃ ds, cs = ds ++ r ∧ allDigits ds ∧ 1 ≤ ds.length ∧ ds.length ≤ 2 ∧
      digitsToNat ds = d ∧ 1 ≤ d := by
  rcases cs with _ | ⟨c, _ | ⟨c2, rest2⟩⟩
  · simp [readDay] at h
  · simp only [readDay] at h
    split_ifs at h with h3 h12 h0 h19
    · obtain ⟨rfl, rfl⟩ := some_pair_inj h
      subst h3
      exact ⟨['3'], by simp, allDigits_cons (by decide) allDigits_nil,
        by decide, by decide, by decide, by decide⟩
    · obtain ⟨rfl, rfl⟩ := some_pair_inj h
      rcases h12 with rfl | rfl
      · exact ⟨['1'], by simp, allDigits_cons (by decide) allDigits_nil,
          by decide, by decide, by decide, by decide⟩
      · exact ⟨['2'], by simp, allDigits_cons (by decide) allDigits_nil,
          by decide, by decide, by decide, by decide⟩
    · obtain ⟨rfl, rfl⟩ := some_pair_inj h
      have hb : 49 ≤ c.toNat ∧ c.toNat ≤ 57 := h19
      refine ⟨[c], by simp, allDigits_cons ⟨show 48 ≤ c.toNat by omega,
        show c.toNat ≤ 57 by omega⟩ allDigits_nil, by simp, by simp,
        by rw [digitsToNat_one], ?_⟩
      rw [digitVal_eq]
      omega
  · simp only [readDay] at h
    split_ifs at h with h3 h01 h12 h09 h0 h19v h19
    · obtain ⟨rfl, rfl⟩ := some_pair_inj h
      subst h3
      rcases h01 with rfl | rfl
      · exact ⟨['3', '0'], by simp, allDigits_cons (by decide)
          (allDigits_cons (by decide) allDigits_nil),
          by decide, by decide, by decide, by decide⟩
      · exact ⟨['3', '1'], by simp, allDigits_cons (by decide)
          (allDigits_cons (by decide) allDigits_nil),
          by decide, by decide, by decide, by decide⟩
    · obtain ⟨rfl, rfl⟩ := some_pair_inj h
      subst h3
      exact ⟨['3'], by simp, allDigits_cons (by decide) allDigits_nil,
        by decide, by decide, by decide, by decide⟩
    · obtain ⟨rfl, rfl⟩ := some_pair_inj h
      have hb : 48 ≤ c2.toNat ∧ c2.toNat ≤ 57 := h09
      rcases h12 with rfl | rfl
      · refine ⟨['1', c2], by simp, allDigits_cons (by decide)
          (allDigits_cons ⟨h09.1, show c2.toNat ≤ 57 by omega⟩ allDigits_nil),
          by simp, by simp, by rw [digitsToNat_two], ?_⟩
        have h1v : digitVal '1' = 1 := rfl
        omega
      · refine ⟨['2', c2], by simp, allDigits_cons (by decide)
          (allDigits_cons ⟨h09.1, show c2.toNat ≤ 57 by omega⟩ allDigits_nil),
          by simp, by simp, by rw [digitsToNat_two], ?_⟩
        have h2v : digitVal '2' = 2 := rfl
        omega
    · obtain ⟨rfl, rfl⟩ := some_pair_inj h
      rcases h12 with rfl | rfl
      · exact ⟨['1'], by simp, allDigits_cons (by decide) allDigits_nil,
          by decide, by decide, by decide, by decide⟩
      · exact ⟨['2'], by simp, allDigits_cons (by decide) allDigits_nil,
          by decide, by decide, by decide, by decide⟩
    · obtain ⟨rfl, rfl⟩ := some_pair_inj h
      subst h0
      have hb : 49 ≤ c2.toNat ∧ c2.toNat ≤ 57 := h19v
      refine ⟨['0', c2], by simp, allDigits_cons (by decide)
        (allDigits_cons ⟨show 48 ≤ c2.toNat by omega, show c2.toNat ≤ 57 by omega⟩
          allDigits_nil),
        by simp, by simp, ?_, ?_⟩
      · rw [digitsToNat_two]
        have h0v : digitVal '0' = 0 := rfl
        omega
      · rw [digitVal_eq]
        omega
    · obtain ⟨rfl, rfl⟩ := some_pair_inj h
      have hb : 49 ≤ c.toNat ∧ c.toNat ≤ 57 := h19
      refine ⟨[c], by simp, allDigits_cons ⟨show 48 ≤ c.toNat by omega,
        show c.toNat ≤ 57 by omega⟩ allDigits_nil, by simp, by simp,
        by rw [digitsToNat_one], ?_⟩
      rw [digitVal_eq]
      omega

theorem readDay_complete (ds : List Char) (d : Nat)
    (hdig : allDigits ds) (hlen1 : 1 ≤ ds.length) (hlen2 : ds.length ≤ 2)
    (hval : digitsToNat ds = d) (hd1 : 1 ≤ d) (hd31 : d ≤ 31) :
    readDay ds = some (d, []) := by
  rcases ds with _ | ⟨c0, _ | ⟨c1, _ | ⟨c2, tl⟩⟩⟩
  · simp at hlen1
  · subst hval
    rcases digit_char_cases (hdig c0 (by simp)) with
      rfl | rfl | rfl | rfl | rfl | rfl | rfl | rfl | rfl | rfl
    · exact absurd hd1 (by decide)
    all_goals rfl
  · subst hval
    rcases digit_char_cases (hdig c0 (by simp)) with
        rfl | rfl | rfl | rfl | rfl | rfl | rfl | rfl | rfl | rfl <;>
      rcases digit_char_cases (hdig c1 (by simp)) with
        rfl | rfl | rfl | rfl | rfl | rfl | rfl | rfl | rfl | rfl <;>
      first
        | rfl
        | exact absurd hd1 (by decide)
        | exact absurd hd31 (by decide)
  · simp at hlen2

theorem daysInMonth_le_31 (y m : Nat) : daysInMonth y m ≤ 31 := by
  unfold daysInMonth
  split_ifs <;> omega

theorem strptimeYmd_isSome_iff (s : String) :
    (strptimeYmd s).isSome = true ↔ specFlexYmd s := by
  constructor
  · intro h
    rcases hY : readYear s.data with _ | ⟨y, r1⟩
    · simp [strptimeYmd, hY] at h
    rcases r1 with _ | ⟨c1, r2⟩
    · simp [strptimeYmd, hY] at h
    by_cases hc1 : c1 = '-'
    swap
    · simp [strptimeYmd, hY, hc1] at h
    subst hc1
    rcases hM : readMonth r2 with _ | ⟨m, r3⟩
    · simp [strptimeYmd, hY, hM] at h
    rcases r3 with _ | ⟨c2, r4⟩
    · simp [strptimeYmd, hY, hM] at h
    by_cases hc2 : c2 = '-'
    swap
    · simp [strptimeYmd, hY, hM, hc2] at h
    subst hc2
    rcases hD : readDay r4 with _ | ⟨d, r5⟩
    · simp [strptimeYmd, hY, hM, hD] at h
    simp only [strptimeYmd, hY, hM, hD] at h
    simp only [if_true] at h
    split_ifs at h with hcond
    · obtain ⟨hr5, hy1, hdm⟩ := hcond
      subst hr5
      obtain ⟨ys, hcs, hysdig, hys4, hysv⟩ := readYear_sound hY
      obtain ⟨ms, hr2, hmsdig, hms1, hms2, hmsv, hm1, hm12⟩ := readMonth_sound hM
      obtain ⟨dsl, hr4, hdsdig, hds1, hds2, hdsv, hd1⟩ := readDay_sound hD
      refine ⟨ys, ms, dsl, y, m, d, ?_, hysdig, hys4, hysv, hmsdig, hms1, hms2, hmsv,
        hdsdig, hds1, hds2, hdsv, hy1, hm1, hm12, hd1, hdm⟩
      rw [hcs, hr2, hr4]
      simp
    · simp at h
  · rintro ⟨ys, ms, dsl, y, m, d, hdata, hysdig, hys4, hysv, hmsdig, hms1, hms2, hmsv,
      hdsdig, hds1, hds2, hdsv, hy1, hm1, hm12, hd1, hdm⟩
    subst hysv
    subst hmsv
    subst hdsv
    obtain ⟨a, b, c, d4, rfl⟩ : ∃ a b c d4, ys = [a, b, c, d4] := by
      rcases ys with _ | ⟨a, _ | ⟨b, _ | ⟨c, _ | ⟨d4, _ | ⟨e, tl⟩⟩⟩⟩⟩
      · simp at hys4
      · simp at hys4
      · simp at hys4
      · simp at hys4
      · exact ⟨a, b, c, d4, rfl⟩
      · simp at hys4
    have h31 : digitsToNat dsl ≤ 31 := le_trans hdm (daysInMonth_le_31 _ _)
    have hY := readYear_complete a b c d4 ('-' :: (ms ++ '-' :: dsl)) hysdig
    have hM := readMonth_complete ms (digitsToNat ms) dsl hmsdig hms1 hms2 rfl hm1 hm12
    have hD := readDay_complete dsl (digitsToNat dsl) hdsdig hds1 hds2 rfl hd1 h31
    have hdata' : s.data = a :: b :: c :: d4 :: ('-' :: (ms ++ '-' :: dsl)) := by
      rw [hdata]
      simp
    simp [strptimeYmd, hdata', hY, hM, hD, hy1, hdm]

/-- C2 counterexample: the string `"2025-1-1"` is not in strict `"YYYY-MM-DD"`
form (its month and day have a single digit), yet `PrivateAd` construction
succeeds on it, so construction failure is NOT equivalent to the string not
being in `"YYYY-MM-DD"` form. -/
theorem C2_counterexample :
    (mkPrivateAd "Sale" "2025-1-1" 0).isSome = true ∧ ¬ strictYmdForm "2025-1-1" := by
  constructor
  · decide
  · rintro ⟨ys, ms, dsl, y, m, d, hdata, -, hys4, -, -, hms2, -, -, hds2, -⟩
    have hlen := congrArg List.length hdata
    have h8 : ("2025-1-1".data).length = 8 := rfl
    rw [h8] at hlen
    simp [List.length_append] at hlen
    omega

/-- C2 (amended): `PrivateAd` construction fails exactly when the
expiration-date string is not of the year-month-day form accepted by
`strptime("%Y-%m-%d")` — a 4-digit year of at least 0001, a 1-or-2-digit
month, and a 1-or-2-digit day denoting a valid calendar date, nothing more —
while `News` and `WeatherReport` construction never fail. -/
theorem C2_construction_failure (text s : String) (now : Nat) (f1 f2 : String) :
    ((mkPrivateAd text s now).isNone = true ↔ ¬ specFlexYmd s) ∧
    (construct "News" f1 f2 now).isSome = true ∧
    (construct "WeatherReport" f1 f2 now).isSome = true := by
  refine ⟨?_, rfl, rfl⟩
  have h1 : (mkPrivateAd text s now).isNone = (strptimeYmd s).isNone := by
    cases hs : strptimeYmd s with
    | none => simp [mkPrivateAd, hs]
    | some v =>
      obtain ⟨y, m, d⟩ := v
      simp [mkPrivateAd, hs]
  rw [h1, ← strptimeYmd_isSome_iff]
  cases strptimeYmd s <;> simp

end NewsFeedSpec
